import Mathlib

/-!
Verification of the `Vector` trait core of `src/templ/vector.rs`.

The Rust source defines a capability contract (trait `Vector`) with required
primitive operations and derived default methods (`from_iter`,
`with_capacity`, `to_vec`), a bounds checker `index_check`, and two iterator
adapters (`VectorIterator`, owning, and `VectorRefIterator`, borrowed).

Shallow embedding: trait objects become a record `VectorOps` of operations
over an abstract state type `σ`; `&mut self` methods become state-passing
functions; fallible `&mut self` methods return the new state together with
an `Except Error Unit` result; `size_t` becomes `Nat`; Rust `Option`/`Result`
become Lean `Option`/`Except`.  The derived default methods and both
iterator adapters are translated directly from the source bodies.
-/

/-- The single error kind raised by this core (`crate::core::StsOutOfRange`). -/
inductive ErrorKind where
  | StsOutOfRange
deriving DecidableEq, Repr

/-- Embedding of `crate::Error`: an error kind plus a human-readable message. -/
structure Error where
  kind : ErrorKind
  message : String
deriving DecidableEq, Repr

/-- Embedding of `index_check` (vector.rs lines 79-85):
`if index >= len { Err(Error::new(StsOutOfRange, format!("Index: \x7b\x7d out of bounds: 0..\x7b\x7d", index, len))) } else { Ok(()) }`. -/
def index_check (index len : Nat) : Except Error Unit :=
  if index ≥ len then
    .error ⟨.StsOutOfRange,
      "Index: " ++ toString index ++ " out of bounds: 0.." ++ toString len⟩
  else
    .ok ()

/-- Embedding of the required-primitive surface of trait `Vector`
(vector.rs lines 3-68).  `Storage` is the read type `St`, `Arg` the write
type `Ar`, `σ` the concrete container state.  Rust's `&mut self` methods
become state-passing; fallible mutators return the post-state paired with
the `Result`. -/
structure VectorOps (σ St Ar : Type) where
  new : σ
  len : σ → Nat
  is_empty : σ → Bool
  capacity : σ → Nat
  shrink_to_fit : σ → σ
  reserve : σ → Nat → σ
  clear : σ → σ
  push : σ → Ar → σ
  insert : σ → Nat → Ar → σ × Except Error Unit
  remove : σ → Nat → σ × Except Error Unit
  swap : σ → Nat → Nat → σ × Except Error Unit
  get : σ → Nat → Except Error St
  get_unchecked : σ → Nat → St
  set : σ → Nat → Ar → σ × Except Error Unit
  set_unchecked : σ → Nat → Ar → σ

/-- Embedding of the derived default method `with_capacity` (lines 22-26):
`let mut out = Self::new(); out.reserve(capacity); out`. -/
def VectorOps.with_capacity (V : VectorOps σ St Ar) (capacity : Nat) : σ :=
  V.reserve V.new capacity

/-- A finite producer of argument-typed values together with its
`size_hint()` pair `(lo, hi)`, embedding the `impl IntoIterator<Item=Arg>`
source consumed by `from_iter`. -/
structure SizedSource (Ar : Type) where
  items : List Ar
  lo : Nat
  hi : Option Nat

/-- Embedding of the derived default method `from_iter` (lines 12-18):
`let (lo, hi) = s.size_hint(); let mut out = Self::with_capacity(hi.unwrap_or(lo)); s.for_each(|x| out.push(x)); out`. -/
def VectorOps.from_iter (V : VectorOps σ St Ar) (s : SizedSource Ar) : σ :=
  s.items.foldl V.push (V.with_capacity (s.hi.getD s.lo))

/-- Embedding of the derived default method `to_vec` (lines 72-74):
`(0..self.len()).map(|x| unsafe { self.get_unchecked(x) }).collect()`.
`to_vec` takes the container by shared reference, so in the embedding it
only reads the state `s` and produces a fresh list. -/
def VectorOps.to_vec (V : VectorOps σ St Ar) (s : σ) : List St :=
  (List.range (V.len s)).map (V.get_unchecked s)

/-- State of the owning iterator adapter (vector.rs lines 88-91): the
wrapped container plus a cursor `i`. -/
structure VectorIterator (σ : Type) where
  vec : σ
  i : Nat

/-- `VectorIterator::new` (lines 93-97): cursor initialized to 0. -/
def VectorIterator.new (vec : σ) : VectorIterator σ :=
  ⟨vec, 0⟩

/-- `VectorIterator::next` (lines 105-109):
`let out = self.vec.get(self.i); self.i += 1; out.ok()`.
Returns the yielded item together with the successor iterator state. -/
def VectorIterator.next (V : VectorOps σ St Ar) (it : VectorIterator σ) :
    Option St × VectorIterator σ :=
  ((V.get it.vec it.i).toOption, ⟨it.vec, it.i + 1⟩)

/-- `VectorIterator::size_hint` (lines 111-113): `(self.vec.len(), None)`. -/
def VectorIterator.size_hint (V : VectorOps σ St Ar) (it : VectorIterator σ) :
    Nat × Option Nat :=
  (V.len it.vec, none)

/-- `ExactSizeIterator::len` for `VectorIterator` (lines 120-122):
`self.vec.len()`. -/
def VectorIterator.len (V : VectorOps σ St Ar) (it : VectorIterator σ) : Nat :=
  V.len it.vec

/-- State of the borrowed iterator adapter (vector.rs lines 125-128).  The
Rust struct holds `&'v T`; in the pure embedding the referenced container's
state is immutable during iteration, so it is carried by value. -/
structure VectorRefIterator (σ : Type) where
  vec : σ
  i : Nat

/-- `VectorRefIterator::new` (lines 130-134): cursor initialized to 0. -/
def VectorRefIterator.new (vec : σ) : VectorRefIterator σ :=
  ⟨vec, 0⟩

/-- `VectorRefIterator::next` (lines 142-146):
`let out = self.vec.get(self.i); self.i += 1; out.ok()`. -/
def VectorRefIterator.next (V : VectorOps σ St Ar) (it : VectorRefIterator σ) :
    Option St × VectorRefIterator σ :=
  ((V.get it.vec it.i).toOption, ⟨it.vec, it.i + 1⟩)

/-- `VectorRefIterator::size_hint` (lines 148-150): `(self.vec.len(), None)`. -/
def VectorRefIterator.size_hint (V : VectorOps σ St Ar)
    (it : VectorRefIterator σ) : Nat × Option Nat :=
  (V.len it.vec, none)

/-- `ExactSizeIterator::len` for `VectorRefIterator` (lines 157-159):
`self.vec.len()`. -/
def VectorRefIterator.len (V : VectorOps σ St Ar) (it : VectorRefIterator σ) :
    Nat :=
  V.len it.vec

/-- The stream of items produced by `k` successive `next()` calls on the
owning iterator, as a list of `Option` results (one per call). -/
def VectorIterator.run (V : VectorOps σ St Ar) (it : VectorIterator σ) :
    Nat → List (Option St)
  | 0 => []
  | k + 1 => (it.next V).1 :: VectorIterator.run V (it.next V).2 k

/-- The stream of items produced by `k` successive `next()` calls on the
borrowed iterator. -/
def VectorRefIterator.run (V : VectorOps σ St Ar) (it : VectorRefIterator σ) :
    Nat → List (Option St)
  | 0 => []
  | k + 1 => (it.next V).1 :: VectorRefIterator.run V (it.next V).2 k

/-- The owning iterator state after `k` successive `next()` calls. -/
def VectorIterator.advance (V : VectorOps σ St Ar) (it : VectorIterator σ) :
    Nat → VectorIterator σ
  | 0 => it
  | k + 1 => VectorIterator.advance V (it.next V).2 k

/-- A concrete conforming container over Lean lists, used to instantiate
the generic theorems: element sequence in the first component, reserved
capacity in the second.  Checked operations reject out-of-range indices
with the same error `index_check` produces. -/
def listVector (α : Type) [Inhabited α] : VectorOps (List α × Nat) α α where
  new := ([], 0)
  len s := s.1.length
  is_empty s := s.1.isEmpty
  capacity s := max s.2 s.1.length
  shrink_to_fit s := (s.1, s.1.length)
  reserve s n := (s.1, max s.2 (s.1.length + n))
  clear s := ([], s.2)
  push s v := (s.1 ++ [v], max s.2 (s.1.length + 1))
  insert s i v :=
    match index_check i (s.1.length + 1) with
    | .ok _ => ((s.1.insertIdx i v, max s.2 (s.1.length + 1)), .ok ())
    | .error e => (s, .error e)
  remove s i :=
    match index_check i s.1.length with
    | .ok _ => ((s.1.eraseIdx i, s.2), .ok ())
    | .error e => (s, .error e)
  swap s i j :=
    match s.1[i]?, s.1[j]? with
    | some a, some b => (((s.1.set i b).set j a, s.2), .ok ())
    | none, _ =>
      (s, .error ⟨.StsOutOfRange,
        "Index: " ++ toString i ++ " out of bounds: 0.." ++ toString s.1.length⟩)
    | _, none =>
      (s, .error ⟨.StsOutOfRange,
        "Index: " ++ toString j ++ " out of bounds: 0.." ++ toString s.1.length⟩)
  get s i :=
    match s.1[i]? with
    | some a => .ok a
    | none =>
      .error ⟨.StsOutOfRange,
        "Index: " ++ toString i ++ " out of bounds: 0.." ++ toString s.1.length⟩
  get_unchecked s i := s.1.getD i default
  set s i v :=
    match index_check i s.1.length with
    | .ok _ => ((s.1.set i v, s.2), .ok ())
    | .error e => (s, .error e)
  set_unchecked s i v := (s.1.set i v, s.2)

/-- Fixed instantiation at element type `Nat`, used by the witnesses. -/
def listVectorNat : VectorOps (List Nat × Nat) Nat Nat :=
  listVector Nat

/-- Helper: folding `push` over a list appends that list to the model,
when `push` appends one element at the end of the model. -/
theorem model_foldl_push (V : VectorOps σ α α) (model : σ → List α)
    (hpush : ∀ s x, model (V.push s x) = model s ++ [x])
    (l : List α) (s : σ) : model (l.foldl V.push s) = model s ++ l := by
  induction l generalizing s with
  | nil => simp
  | cons x xs ih => simp [List.foldl_cons, ih, hpush]

/-- Helper: `to_vec` reproduces the model sequence when `len` and
`get_unchecked` agree with the model at the given state. -/
theorem to_vec_eq_model (V : VectorOps σ St Ar) (model : σ → List St) (s : σ)
    (hlen : V.len s = (model s).length)
    (hgetu : ∀ (i : Nat) (h : i < (model s).length),
      V.get_unchecked s i = (model s).get ⟨i, h⟩) :
    V.to_vec s = model s := by
  apply List.ext_getElem
  · simp [VectorOps.to_vec, hlen]
  · intro n h1 h2
    simp only [VectorOps.to_vec, List.getElem_map, List.getElem_range]
    exact hgetu n h2

/-- C2: `index_check(index, length)` succeeds exactly when `index < length`;
when `index >= length` it fails with the out-of-range kind, and its message
contains both the offending index and the valid exclusive upper bound.  The
embedding is a pure function of its two arguments, so the check has no side
effects. -/
theorem index_check_spec (index len : Nat) :
    (index_check index len = .ok () ↔ index < len) ∧
    (len ≤ index →
      index_check index len = .error ⟨.StsOutOfRange,
        "Index: " ++ toString index ++ " out of bounds: 0.." ++ toString len⟩ ∧
      ∃ a b, "Index: " ++ toString index ++ " out of bounds: 0.." ++ toString len
        = a ++ toString index ++ b ++ toString len) := by
  unfold index_check
  by_cases h : len ≤ index
  · rw [if_pos h]
    refine ⟨⟨fun hc => absurd hc (by simp), fun hc => absurd hc (Nat.not_lt.mpr h)⟩,
      fun _ => ⟨rfl, "Index: ", " out of bounds: 0..", rfl⟩⟩
  · rw [if_neg h]
    exact ⟨⟨fun _ => Nat.lt_of_not_le h, fun _ => rfl⟩, fun hc => absurd hc h⟩

theorem index_check_spec_witness :
    index_check 2 5 = .ok () ∧
    index_check 7 5 = .error ⟨.StsOutOfRange,
      "Index: " ++ toString 7 ++ " out of bounds: 0.." ++ toString 5⟩ :=
  ⟨(index_check_spec 2 5).1.mpr (by decide),
   ((index_check_spec 7 5).2 (by decide)).1⟩

/-- C5: for any iterator state of either adapter, regardless of the cursor,
`size_hint` reports the wrapped container's current length as the lower
bound with no declared upper bound, and the `ExactSizeIterator` length
query reports the container's length at the time of query. -/
theorem size_hint_reports_length (V : VectorOps σ St Ar) (s : σ) (c : Nat) :
    VectorIterator.size_hint V ⟨s, c⟩ = (V.len s, none) ∧
    VectorIterator.len V ⟨s, c⟩ = V.len s ∧
    VectorRefIterator.size_hint V ⟨s, c⟩ = (V.len s, none) ∧
    VectorRefIterator.len V ⟨s, c⟩ = V.len s :=
  ⟨rfl, rfl, rfl, rfl⟩

/-- C7: `to_vec` reads indices `0..len` in increasing order through the
unchecked accessor and materializes them, preserving order: the result has
length `len` and its `i`-th element is `get_unchecked(i)`.  The container is
not modified: `to_vec` takes the state by shared reference (in the
embedding, a pure function of `s` returning a fresh list). -/
theorem to_vec_spec (V : VectorOps σ St Ar) (s : σ) :
    V.to_vec s = (List.range (V.len s)).map (V.get_unchecked s) ∧
    (V.to_vec s).length = V.len s ∧
    ∀ i, i < V.len s → (V.to_vec s)[i]? = some (V.get_unchecked s i) := by
  refine ⟨rfl, by simp [VectorOps.to_vec], fun i h => ?_⟩
  simp only [VectorOps.to_vec, List.getElem?_map, List.getElem?_range h,
    Option.map_some']

theorem to_vec_spec_witness :
    (listVectorNat.to_vec ([5, 6, 7], 0))[1]?
      = some (listVectorNat.get_unchecked ([5, 6, 7], 0) 1) :=
  (to_vec_spec listVectorNat ([5, 6, 7], 0)).2.2 1 (by decide)

/-- Helper: the borrowed iterator's `run` agrees with the owning
iterator's `run` from any common state, since the two `next` bodies are
identical. -/
theorem run_ref_eq_run (V : VectorOps σ St Ar) (s : σ) :
    ∀ (k c : Nat),
      VectorRefIterator.run V ⟨s, c⟩ k = VectorIterator.run V ⟨s, c⟩ k := by
  intro k
  induction k with
  | zero => intro c; rfl
  | succ k ih =>
    intro c
    simp only [VectorRefIterator.run, VectorIterator.run, VectorRefIterator.next,
      VectorIterator.next]
    exact congrArg _ (ih (c + 1))

/-- C8: the owning and borrowed iterator adapters are behaviorally
identical on the same container: any number `k` of `next()` calls on fresh
adapters produces the same sequence of results, and at every cursor the
size estimates and exact-size reports agree. -/
theorem owning_ref_iterators_equivalent (V : VectorOps σ St Ar) (s : σ)
    (k : Nat) :
    VectorIterator.run V (VectorIterator.new s) k
      = VectorRefIterator.run V (VectorRefIterator.new s) k ∧
    ∀ c : Nat,
      VectorIterator.size_hint V ⟨s, c⟩ = VectorRefIterator.size_hint V ⟨s, c⟩ ∧
      VectorIterator.len V ⟨s, c⟩ = VectorRefIterator.len V ⟨s, c⟩ :=
  ⟨(run_ref_eq_run V s k 0).symm, fun _ => ⟨rfl, rfl⟩⟩

/-- Helper: the concrete list container's checked `get` succeeds with the
stored element exactly on in-range indices: its `Result`, viewed as an
option, is list indexing. -/
theorem listVector_get_toOption (α : Type) [Inhabited α] (s : List α × Nat)
    (j : Nat) : ((listVector α).get s j).toOption = s.1[j]? := by
  simp only [listVector]
  cases h : s.1[j]? <;> simp [h, Except.toOption]

/-- C1: building a container with `from_iter(S)` and reading it back with
`to_vec` yields exactly `S`, element-for-element, in order — for any
container whose primitives satisfy the contract: `new` is empty, `reserve`
does not change elements, `len` is the number of elements, `push` appends
one element at the end, and `get_unchecked i` returns the element at
index `i`. -/
theorem from_iter_to_vec_roundtrip (V : VectorOps σ α α) (model : σ → List α)
    (S : SizedSource α)
    (hnew : model V.new = [])
    (hreserve : ∀ s n, model (V.reserve s n) = model s)
    (hlen : ∀ s, V.len s = (model s).length)
    (hpush : ∀ s x, model (V.push s x) = model s ++ [x])
    (hgetu : ∀ (s : σ) (i : Nat) (h : i < (model s).length),
      V.get_unchecked s i = (model s).get ⟨i, h⟩) :
    V.to_vec (V.from_iter S) = S.items := by
  have hm : model (V.from_iter S) = S.items := by
    unfold VectorOps.from_iter VectorOps.with_capacity
    rw [model_foldl_push V model hpush, hreserve, hnew, List.nil_append]
  rw [to_vec_eq_model V model (V.from_iter S) (hlen _) (hgetu _), hm]

theorem from_iter_to_vec_roundtrip_witness :
    listVectorNat.to_vec (listVectorNat.from_iter ⟨[4, 5, 6], 3, some 3⟩)
      = [4, 5, 6] :=
  from_iter_to_vec_roundtrip listVectorNat Prod.fst ⟨[4, 5, 6], 3, some 3⟩
    rfl (fun _ _ => rfl) (fun _ => rfl) (fun _ _ => rfl)
    (fun s i h => by
      simp [listVectorNat, listVector, List.getElem?_eq_getElem h])

/-- C3: for any iterator state of either adapter over a container whose
checked `get i` succeeds with the element at `i` exactly when `i < len`:
when the cursor has reached or passed the length, `next()` yields no more
elements; otherwise `next()` yields the element at the cursor (read through
the checked `get`) and the successor state's cursor is advanced by 1. -/
theorem iterator_next_spec (V : VectorOps σ St Ar) (L : List St) (s : σ)
    (c : Nat)
    (hlen : V.len s = L.length)
    (hget : ∀ j, (V.get s j).toOption = L[j]?) :
    (V.len s ≤ c →
      (VectorIterator.next V ⟨s, c⟩).1 = none ∧
      (VectorRefIterator.next V ⟨s, c⟩).1 = none) ∧
    (∀ h : c < V.len s,
      (VectorIterator.next V ⟨s, c⟩).1 = some (L.get ⟨c, hlen ▸ h⟩) ∧
      ((VectorIterator.next V ⟨s, c⟩).2).i = c + 1 ∧
      (VectorRefIterator.next V ⟨s, c⟩).1 = some (L.get ⟨c, hlen ▸ h⟩) ∧
      ((VectorRefIterator.next V ⟨s, c⟩).2).i = c + 1) := by
  constructor
  · intro h
    have hn : L[c]? = none := List.getElem?_eq_none (hlen ▸ h)
    exact ⟨by simp [VectorIterator.next, hget, hn],
           by simp [VectorRefIterator.next, hget, hn]⟩
  · intro h
    have hc : c < L.length := hlen ▸ h
    have hs : L[c]? = some (L.get ⟨c, hc⟩) := by
      simp [List.getElem?_eq_getElem hc]
    exact ⟨by simp [VectorIterator.next, hget, hs], rfl,
           by simp [VectorRefIterator.next, hget, hs], rfl⟩

theorem iterator_next_spec_witness :
    (VectorIterator.next listVectorNat ⟨([3, 4], 0), 5⟩).1 = none ∧
    (VectorIterator.next listVectorNat ⟨([3, 4], 0), 1⟩).1 = some 4 :=
  ⟨((iterator_next_spec listVectorNat [3, 4] ([3, 4], 0) 5 rfl
      (listVector_get_toOption Nat ([3, 4], 0))).1 (by decide)).1,
   ((iterator_next_spec listVectorNat [3, 4] ([3, 4], 0) 1 rfl
      (listVector_get_toOption Nat ([3, 4], 0))).2 (by decide)).1⟩

/-- Helper: from cursor `c`, `k` calls to `next()` yield the checked reads
at positions `c, c+1, ..., c+k-1`. -/
theorem run_eq_range_map (V : VectorOps σ St Ar) (L : List St) (s : σ)
    (hget : ∀ j, (V.get s j).toOption = L[j]?) :
    ∀ (k c : Nat),
      VectorIterator.run V ⟨s, c⟩ k = (List.range' c k).map (fun t => L[t]?) := by
  intro k
  induction k with
  | zero => intro c; rfl
  | succ k ih =>
    intro c
    rw [List.range'_succ]
    simp only [VectorIterator.run, VectorIterator.next, List.map_cons, hget,
      ih (c + 1)]

/-- Helper: the in-range positions read back the whole list. -/
theorem range_map_getElem?_eq_map_some (L : List St) :
    (List.range' 0 L.length).map (fun t => L[t]?) = L.map some := by
  apply List.ext_getElem
  · simp
  · intro n h1 h2
    have hn : n < L.length := by simpa using h1
    simp [List.getElem_range', List.getElem?_eq_getElem hn]

/-- Helper: positions at or past the length all read back `none`. -/
theorem range_map_getElem?_eq_replicate_none (L : List St) (N : Nat)
    (hN : L.length ≤ N) (m : Nat) :
    (List.range' N m).map (fun t => L[t]?) = List.replicate m none := by
  rw [List.eq_replicate_iff]
  refine ⟨by simp, fun b hb => ?_⟩
  simp only [List.mem_map] at hb
  obtain ⟨t, ht, rfl⟩ := hb
  rw [List.mem_range'] at ht
  obtain ⟨i, hi, rfl⟩ := ht
  exact List.getElem?_eq_none (by omega)

/-- C4: a freshly constructed iterator (owning or borrowed) over a
container of length `N` yields exactly the `N` stored elements, at indices
0 through `N-1` in order, and every subsequent `next()` call reports
exhaustion (`none`), never yielding an element again: `N + m` calls produce
the `N` elements followed by `m` exhaustion reports, for every `m`. -/
theorem iterator_yields_all_then_exhausts (V : VectorOps σ St Ar) (L : List St)
    (s : σ)
    (hlen : V.len s = L.length)
    (hget : ∀ j, (V.get s j).toOption = L[j]?) (m : Nat) :
    VectorIterator.run V (VectorIterator.new s) (V.len s + m)
      = L.map some ++ List.replicate m none ∧
    VectorRefIterator.run V (VectorRefIterator.new s) (V.len s + m)
      = L.map some ++ List.replicate m none := by
  have hsplit : List.range' 0 (L.length + m)
      = List.range' 0 L.length ++ List.range' L.length m := by
    have h := List.range'_append 0 L.length m 1
    simpa [Nat.add_comm] using h.symm
  have h1 : VectorIterator.run V (VectorIterator.new s) (V.len s + m)
      = L.map some ++ List.replicate m none := by
    show VectorIterator.run V ⟨s, 0⟩ (V.len s + m) = _
    rw [run_eq_range_map V L s hget (V.len s + m) 0, hlen, hsplit,
      List.map_append, range_map_getElem?_eq_map_some L,
      range_map_getElem?_eq_replicate_none L L.length le_rfl m]
  refine ⟨h1, ?_⟩
  show VectorRefIterator.run V ⟨s, 0⟩ (V.len s + m) = _
  rw [run_ref_eq_run V s (V.len s + m) 0]
  exact h1

theorem iterator_yields_all_then_exhausts_witness :
    VectorIterator.run listVectorNat (VectorIterator.new ([3, 4], 0)) 4
      = [some 3, some 4, none, none] :=
  (iterator_yields_all_then_exhausts listVectorNat [3, 4] ([3, 4], 0) rfl
    (listVector_get_toOption Nat ([3, 4], 0)) 2).1

/-- C6: `from_iter` first creates a container pre-reserving capacity from
the source's size estimate — the upper bound `hi` when available, otherwise
the lower bound `lo` (`hi.unwrap_or(lo)`; an unknown estimate is `lo = 0`)
— and then pushes each produced value in production order, so the element
order of the result matches the source's production order exactly.  The
contract hypotheses: `new` is empty, `reserve` keeps elements and ensures
`capacity ≥ len + additional`, `len` counts elements, `push` appends. -/
theorem from_iter_spec (V : VectorOps σ α α) (model : σ → List α)
    (S : SizedSource α)
    (hnew : model V.new = [])
    (hreserve : ∀ s n, model (V.reserve s n) = model s)
    (hreserve_cap : ∀ s n, V.len s + n ≤ V.capacity (V.reserve s n))
    (hlen : ∀ s, V.len s = (model s).length)
    (hpush : ∀ s x, model (V.push s x) = model s ++ [x]) :
    V.from_iter S = S.items.foldl V.push (V.with_capacity (S.hi.getD S.lo)) ∧
    S.hi.getD S.lo ≤ V.capacity (V.with_capacity (S.hi.getD S.lo)) ∧
    model (V.from_iter S) = S.items := by
  refine ⟨rfl, ?_, ?_⟩
  · have h := hreserve_cap V.new (S.hi.getD S.lo)
    have hz : V.len V.new = 0 := by rw [hlen, hnew]; rfl
    rw [hz, Nat.zero_add] at h
    exact h
  · unfold VectorOps.from_iter VectorOps.with_capacity
    rw [model_foldl_push V model hpush, hreserve, hnew, List.nil_append]

theorem from_iter_spec_witness :
    2 ≤ listVectorNat.capacity (listVectorNat.with_capacity 2) ∧
    (listVectorNat.from_iter ⟨[7, 8], 2, none⟩).1 = [7, 8] :=
  ⟨(from_iter_spec listVectorNat Prod.fst ⟨[7, 8], 2, none⟩
      rfl (fun _ _ => rfl) (fun s n => by simp [listVectorNat, listVector])
      (fun _ => rfl) (fun _ _ => rfl)).2.1,
   (from_iter_spec listVectorNat Prod.fst ⟨[7, 8], 2, none⟩
      rfl (fun _ _ => rfl) (fun s n => by simp [listVectorNat, listVector])
      (fun _ => rfl) (fun _ _ => rfl)).2.2⟩

/-- Variant of `next` written from the spec's alternative reading: the
cursor advances only when the checked read succeeds.  Used to compare the
source's unconditional advance against advance-on-success. -/
def VectorIterator.nextCheckedAdvance (V : VectorOps σ St Ar)
    (it : VectorIterator σ) : Option St × VectorIterator σ :=
  match (V.get it.vec it.i).toOption with
  | some x => (some x, ⟨it.vec, it.i + 1⟩)
  | none => (none, it)

/-- The stream of items produced by `k` calls of the advance-on-success
variant. -/
def VectorIterator.runCheckedAdvance (V : VectorOps σ St Ar)
    (it : VectorIterator σ) : Nat → List (Option St)
  | 0 => []
  | k + 1 => (it.nextCheckedAdvance V).1 ::
      VectorIterator.runCheckedAdvance V (it.nextCheckedAdvance V).2 k

/-- Helper: `k` calls to `next()` move the cursor from `c` to `c + k`, the
container component unchanged. -/
theorem advance_cursor (V : VectorOps σ St Ar) (s : σ) :
    ∀ (k c : Nat), VectorIterator.advance V ⟨s, c⟩ k = ⟨s, c + k⟩ := by
  intro k
  induction k with
  | zero => intro c; rfl
  | succ k ih =>
    intro c
    simp only [VectorIterator.advance, VectorIterator.next]
    rw [ih (c + 1)]
    exact congrArg _ (by omega)

/-- Helper: the unconditional-advance stream from cursor `c` equals the
advance-on-success stream from cursor `min c N`, `N` the container
length. -/
theorem run_eq_runCheckedAdvance (V : VectorOps σ St Ar) (L : List St) (s : σ)
    (hget : ∀ j, (V.get s j).toOption = L[j]?) :
    ∀ (k c : Nat), VectorIterator.run V ⟨s, c⟩ k
      = VectorIterator.runCheckedAdvance V ⟨s, min c L.length⟩ k := by
  intro k
  induction k with
  | zero => intro c; rfl
  | succ k ih =>
    intro c
    by_cases h : c < L.length
    · have hmin : min c L.length = c := Nat.min_eq_left (Nat.le_of_lt h)
      have hmin1 : min (c + 1) L.length = c + 1 := Nat.min_eq_left h
      have hs : L[c]? = some (L.get ⟨c, h⟩) := by
        simp [List.getElem?_eq_getElem h]
      simp only [VectorIterator.run, VectorIterator.runCheckedAdvance,
        VectorIterator.next, VectorIterator.nextCheckedAdvance, hmin, hget, hs,
        ih (c + 1), hmin1]
    · have hge : L.length ≤ c := Nat.le_of_not_lt h
      have hmin : min c L.length = L.length := Nat.min_eq_right hge
      have hmin1 : min (c + 1) L.length = L.length :=
        Nat.min_eq_right (Nat.le_succ_of_le hge)
      have hn : L[c]? = none := List.getElem?_eq_none hge
      have hN : L[L.length]? = none := List.getElem?_eq_none le_rfl
      simp only [VectorIterator.run, VectorIterator.runCheckedAdvance,
        VectorIterator.next, VectorIterator.nextCheckedAdvance, hmin, hget, hn,
        hN, ih (c + 1), hmin1]

/-- C10: every `next()` call on either adapter increments the cursor by
exactly 1, even when the checked read fails, so after exhaustion the
cursor keeps growing strictly past the container's length; and for a
container whose length does not change, the unconditional advance produces
the same observable output sequence as advancing only on successful
reads. -/
theorem next_unconditionally_advances (V : VectorOps σ St Ar) (L : List St)
    (s : σ)
    (_hlen : V.len s = L.length)
    (hget : ∀ j, (V.get s j).toOption = L[j]?) :
    (∀ c : Nat, ((VectorIterator.next V ⟨s, c⟩).2).i = c + 1 ∧
                ((VectorRefIterator.next V ⟨s, c⟩).2).i = c + 1) ∧
    (∀ m : Nat, V.len s <
      (VectorIterator.advance V (VectorIterator.new s) (V.len s + m + 1)).i) ∧
    (∀ k : Nat, VectorIterator.run V (VectorIterator.new s) k
      = VectorIterator.runCheckedAdvance V (VectorIterator.new s) k) := by
  refine ⟨fun c => ⟨rfl, rfl⟩, fun m => ?_, fun k => ?_⟩
  · show V.len s < (VectorIterator.advance V ⟨s, 0⟩ (V.len s + m + 1)).i
    rw [advance_cursor V s (V.len s + m + 1) 0]
    show V.len s < 0 + (V.len s + m + 1)
    omega
  · show VectorIterator.run V ⟨s, 0⟩ k
      = VectorIterator.runCheckedAdvance V ⟨s, 0⟩ k
    have h := run_eq_runCheckedAdvance V L s hget k 0
    rwa [Nat.min_eq_left (Nat.zero_le _)] at h

theorem next_unconditionally_advances_witness :
    listVectorNat.len ([3, 4], 0) <
      (VectorIterator.advance listVectorNat
        (VectorIterator.new ([3, 4], 0)) 4).i ∧
    VectorIterator.run listVectorNat (VectorIterator.new ([3, 4], 0)) 4
      = VectorIterator.runCheckedAdvance listVectorNat
          (VectorIterator.new ([3, 4], 0)) 4 :=
  ⟨(next_unconditionally_advances listVectorNat [3, 4] ([3, 4], 0) rfl
      (listVector_get_toOption Nat ([3, 4], 0))).2.1 1,
   (next_unconditionally_advances listVectorNat [3, 4] ([3, 4], 0) rfl
      (listVector_get_toOption Nat ([3, 4], 0))).2.2 4⟩

/-- One call through the container capability surface, as used when
stating the length/capacity invariant over operation sequences. -/
inductive VecOp (Ar : Type) where
  | reserve (n : Nat)
  | shrink_to_fit
  | clear
  | push (v : Ar)
  | insert (i : Nat) (v : Ar)
  | remove (i : Nat)
  | swap (i j : Nat)
  | set (i : Nat) (v : Ar)
  | set_unchecked (i : Nat) (v : Ar)

/-- Apply one operation to a container state; fallible mutators contribute
their post-state whether or not they report an error. -/
def VectorOps.applyOp (V : VectorOps σ St Ar) (s : σ) : VecOp Ar → σ
  | .reserve n => V.reserve s n
  | .shrink_to_fit => V.shrink_to_fit s
  | .clear => V.clear s
  | .push v => V.push s v
  | .insert i v => (V.insert s i v).1
  | .remove i => (V.remove s i).1
  | .swap i j => (V.swap s i j).1
  | .set i v => (V.set s i v).1
  | .set_unchecked i v => V.set_unchecked s i v

/-- Apply a sequence of operations, left to right. -/
def VectorOps.applyOps (V : VectorOps σ St Ar) (s : σ)
    (ops : List (VecOp Ar)) : σ :=
  ops.foldl V.applyOp s

/-- The length/capacity invariant: `capacity() ≥ len()`. -/
def VectorOps.Inv (V : VectorOps σ St Ar) (s : σ) : Prop :=
  V.len s ≤ V.capacity s

/-- The assumption of the invariant claim: each required primitive
individually establishes or preserves `capacity ≥ len`. -/
structure PreservesInv (V : VectorOps σ St Ar) : Prop where
  new : V.Inv V.new
  reserve : ∀ s n, V.Inv s → V.Inv (V.reserve s n)
  shrink_to_fit : ∀ s, V.Inv s → V.Inv (V.shrink_to_fit s)
  clear : ∀ s, V.Inv s → V.Inv (V.clear s)
  push : ∀ s v, V.Inv s → V.Inv (V.push s v)
  insert : ∀ s i v, V.Inv s → V.Inv (V.insert s i v).1
  remove : ∀ s i, V.Inv s → V.Inv (V.remove s i).1
  swap : ∀ s i j, V.Inv s → V.Inv (V.swap s i j).1
  set : ∀ s i v, V.Inv s → V.Inv (V.set s i v).1
  set_unchecked : ∀ s i v, V.Inv s → V.Inv (V.set_unchecked s i v)

/-- Helper: folding `push` over any list preserves the invariant. -/
theorem inv_foldl_push (V : VectorOps σ St Ar)
    (hpush : ∀ s v, V.Inv s → V.Inv (V.push s v)) :
    ∀ (l : List Ar) (s : σ), V.Inv s → V.Inv (l.foldl V.push s) := by
  intro l
  induction l with
  | nil => intro s hs; exact hs
  | cons x xs ih => intro s hs; exact ih (V.push s x) (hpush s x hs)

/-- C9: assuming each required primitive preserves `capacity ≥ len`, the
invariant holds after every call of every operation sequence, and the
derived operations establish it too: `with_capacity` and `from_iter`
produce states satisfying it (`to_vec` takes the container by shared
reference and leaves its state untouched, so it cannot disturb it). -/
theorem capacity_ge_len_invariant (V : VectorOps σ St Ar)
    (hP : PreservesInv V) (ops : List (VecOp Ar)) (s : σ) (hs : V.Inv s) :
    V.Inv (V.applyOps s ops) ∧
    (∀ n, V.Inv (V.with_capacity n)) ∧
    (∀ S : SizedSource Ar, V.Inv (V.from_iter S)) := by
  have hone : ∀ (t : σ) (op : VecOp Ar), V.Inv t → V.Inv (V.applyOp t op) := by
    intro t op ht
    cases op with
    | reserve n => exact hP.reserve t n ht
    | shrink_to_fit => exact hP.shrink_to_fit t ht
    | clear => exact hP.clear t ht
    | push v => exact hP.push t v ht
    | insert i v => exact hP.insert t i v ht
    | remove i => exact hP.remove t i ht
    | swap i j => exact hP.swap t i j ht
    | set i v => exact hP.set t i v ht
    | set_unchecked i v => exact hP.set_unchecked t i v ht
  have hwc : ∀ n, V.Inv (V.with_capacity n) :=
    fun n => hP.reserve V.new n hP.new
  refine ⟨?_, hwc, fun S => ?_⟩
  · show V.Inv (ops.foldl V.applyOp s)
    induction ops generalizing s with
    | nil => exact hs
    | cons op rest ih => exact ih (V.applyOp s op) (hone s op hs)
  · exact inv_foldl_push V hP.push S.items _ (hwc _)

/-- Helper: the concrete list container satisfies the invariant at every
state, its capacity being at least the element count by construction. -/
theorem listVectorNat_inv (s : List Nat × Nat) : listVectorNat.Inv s :=
  Nat.le_max_right s.2 s.1.length

/-- Helper: the concrete list container's primitives all preserve the
invariant. -/
theorem listVectorNat_preservesInv : PreservesInv listVectorNat :=
  ⟨listVectorNat_inv _, fun _ _ _ => listVectorNat_inv _,
   fun _ _ => listVectorNat_inv _, fun _ _ => listVectorNat_inv _,
   fun _ _ _ => listVectorNat_inv _, fun _ _ _ _ => listVectorNat_inv _,
   fun _ _ _ => listVectorNat_inv _, fun _ _ _ _ => listVectorNat_inv _,
   fun _ _ _ _ => listVectorNat_inv _, fun _ _ _ _ => listVectorNat_inv _⟩

theorem capacity_ge_len_invariant_witness :
    listVectorNat.Inv (listVectorNat.applyOps listVectorNat.new
      [.push 1, .push 2, .insert 1 9, .remove 0, .reserve 10, .swap 0 1]) ∧
    listVectorNat.Inv (listVectorNat.from_iter ⟨[7, 8, 9], 3, some 3⟩) :=
  ⟨(capacity_ge_len_invariant listVectorNat listVectorNat_preservesInv
      [.push 1, .push 2, .insert 1 9, .remove 0, .reserve 10, .swap 0 1]
      listVectorNat.new (listVectorNat_inv _)).1,
   (capacity_ge_len_invariant listVectorNat listVectorNat_preservesInv []
      listVectorNat.new (listVectorNat_inv _)).2.2 ⟨[7, 8, 9], 3, some 3⟩⟩
